import Mathlib

/-!
Verification development for the Yamanaka sync server (Go sources under
`server/`).  The definitions below are shallow embeddings of the server's
functions: `vault/files.go` (GetAllFiles, CleanDir, WriteFile, DeleteFile),
`state/missed.go` (StoreMissedEvent, RetrieveAndClearMissedEvents),
`state/manager.go` (Manager.Broadcast) and `api/handlers.go` (PushHandler,
InitialSyncHandler, EventsHandler).  Filesystem and OS responses are passed
in explicitly (entry listings, per-path success oracles), everything else is
translated directly from the Go control flow.  Paths are Linux paths, so
`filepath.ToSlash` is the identity and the separator is `/`.
-/

namespace Yamanaka

/-! ### Go `path/filepath` model (Linux)

`filepath.Join(a, b)` concatenates with `/` and applies `filepath.Clean`,
which resolves `.` and `..` lexically.  We represent a path as an
absolute-flag plus the list of `/`-separated components. -/

structure GoPath where
  isAbs : Bool
  comps : List String
  deriving DecidableEq, Repr

/-- One step of `filepath.Clean`: push a raw component onto the (reversed)
output stack.  Empty and `.` components vanish; `..` pops a real component,
is dropped at the root of an absolute path, and accumulates at the front of
a relative path. -/
def cleanStep (isAbsolute : Bool) (acc : List String) (c : String) : List String :=
  if c = "" ∨ c = "." then acc
  else if c = ".." then
    match acc with
    | [] => if isAbsolute then [] else [".."]
    | t :: rest => if t = ".." then ".." :: t :: rest else rest
  else c :: acc

/-- `filepath.Clean` on a component list. -/
def cleanComps (isAbsolute : Bool) (cs : List String) : List String :=
  (cs.foldl (cleanStep isAbsolute) []).reverse

/-- Split a character list at `/`. -/
def splitSlash (cur : List Char) : List Char → List (List Char)
  | [] => [cur.reverse]
  | c :: cs => if c = '/' then cur.reverse :: splitSlash [] cs else splitSlash (c :: cur) cs

/-- Parse a raw path string into the flag-plus-components form (no cleaning:
empty components are dropped, `.`/`..` are kept as written). -/
def parsePath (s : String) : GoPath :=
  { isAbs := match s.toList with
      | '/' :: _ => true
      | _ => false
    comps := ((splitSlash [] s.toList).map String.mk).filter (fun c => c ≠ "") }

/-- `filepath.Join(a, b)`: concatenate the components and clean. -/
def goJoin (a b : GoPath) : GoPath :=
  ⟨a.isAbs, cleanComps a.isAbs (a.comps ++ b.comps)⟩

/-- `fullPath := filepath.Join(vaultPath, relPath)` as computed by both
`vault.WriteFile` and `vault.DeleteFile` — neither function validates
`relPath` in any way before joining. -/
def writeFileTarget (vaultPath relPath : String) : GoPath :=
  goJoin (parsePath vaultPath) (parsePath relPath)

/-- Whether a resolved path still lies at or below the given root. -/
def underRoot (root p : GoPath) : Bool :=
  root.isAbs == p.isAbs && root.comps.isPrefixOf p.comps

/-! ### base64 (Go `encoding/base64` StdEncoding) -/

/-- Value of one standard-alphabet base64 character. -/
def b64Index (c : Char) : Option Nat :=
  if 'A' ≤ c ∧ c ≤ 'Z' then some (c.toNat - 65)
  else if 'a' ≤ c ∧ c ≤ 'z' then some (c.toNat - 97 + 26)
  else if '0' ≤ c ∧ c ≤ '9' then some (c.toNat - 48 + 52)
  else if c = '+' then some 62
  else if c = '/' then some 63
  else none

/-- Standard-alphabet character for a 6-bit value. -/
def b64Chr (n : Nat) : Char :=
  if n < 26 then Char.ofNat (65 + n)
  else if n < 52 then Char.ofNat (97 + (n - 26))
  else if n < 62 then Char.ofNat (48 + (n - 52))
  else if n = 62 then '+' else '/'

/-- `base64.StdEncoding.EncodeToString` over a byte list. -/
def base64EncodeList : List Nat → List Char
  | [] => []
  | [a] => [b64Chr (a / 4 % 64), b64Chr (a % 4 * 16), '=', '=']
  | [a, b] => [b64Chr (a / 4 % 64), b64Chr (a % 4 * 16 + b / 16), b64Chr (b % 16 * 4), '=']
  | a :: b :: c :: rest =>
      b64Chr (a / 4 % 64) :: b64Chr (a % 4 * 16 + b / 16) ::
        b64Chr (b % 16 * 4 + c / 64) :: b64Chr (c % 64) :: base64EncodeList rest

def base64Encode (bs : List Nat) : String :=
  String.mk (base64EncodeList bs)

/-- `base64.StdEncoding.DecodeString` over the character list: the input must
be a sequence of 4-character groups, padding only in the final group; like Go,
non-zero trailing bits in a padded group are accepted. -/
def base64DecodeChunks : List Char → Option (List Nat)
  | [] => some []
  | a :: b :: c :: d :: rest => do
      let va ← b64Index a
      let vb ← b64Index b
      if c = '=' then
        if d = '=' ∧ rest = [] then some [va * 4 + vb / 16] else none
      else do
        let vc ← b64Index c
        if d = '=' then
          if rest = [] then some [va * 4 + vb / 16, vb % 16 * 16 + vc / 4] else none
        else do
          let vd ← b64Index d
          let tail ← base64DecodeChunks rest
          some ((va * 4 + vb / 16) :: (vb % 16 * 16 + vc / 4) :: (vc % 4 * 64 + vd) :: tail)
  | _ => none

def base64Decode (s : String) : Option (List Nat) :=
  base64DecodeChunks s.toList

/-! ### Vault Store (`vault/files.go`) -/

/-- `vault.File`: path (relative, forward slashes) plus base64 content. -/
structure File where
  path : String
  content : String
  deriving DecidableEq, Repr

/-- One filesystem node visited by `filepath.Walk`: its full path, whether it
is a directory, and (for regular files) its bytes. -/
structure FSEntry where
  path : String
  isDir : Bool
  content : List Nat
  deriving DecidableEq, Repr

/-- `strings.Contains` via an explicit scan. -/
def containsSub (sub : List Char) : List Char → Bool
  | [] => sub.isPrefixOf []
  | c :: cs => sub.isPrefixOf (c :: cs) || containsSub sub cs

/-- `strings.Contains(s, sub)`. -/
def strContains (s sub : String) : Bool :=
  containsSub sub.toList s.toList

/-- Consume an expected prefix, returning the remainder. -/
def afterPrefix : List Char → List Char → Option (List Char)
  | [], s => some s
  | _, [] => none
  | p :: ps, c :: cs => if p = c then afterPrefix ps cs else none

/-- `filepath.Rel(base, p)` restricted to the inputs `filepath.Walk` produces:
`p` is `base` itself or lies strictly below it. -/
def relTo (base p : String) : String :=
  if p = base then "."
  else
    match afterPrefix (base.toList ++ ['/']) p.toList with
    | some rest => String.mk rest
    | none => p

/-- `vault.GetAllFiles`: walk the vault, skip every directory and every path
containing the substring `.git`, return the remaining regular files with the
path made relative to the vault root and the content base64-encoded.  The
walk's visit list is passed in as `entries`. -/
def GetAllFiles (vaultPath : String) (entries : List FSEntry) : List File :=
  entries.filterMap fun e =>
    if e.isDir || strContains e.path ".git" then none
    else some ⟨relTo vaultPath e.path, base64Encode e.content⟩

/-- `vault.CleanDir`: the top-level entry names removed (`os.RemoveAll` is
called on every entry except the one named `.git`). -/
def CleanDirRemoved (entries : List String) : List String :=
  entries.filterMap fun name => if name = ".git" then none else some name

/-- The top-level entries that survive `vault.CleanDir`. -/
def CleanDirKept (entries : List String) : List String :=
  entries.filter fun name => name = ".git"

/-! ### Events (`events/events.go`) and their JSON serialization

`FileEventData` has fields `Path` (tag `path`), `Content` (tag
`content,omitempty`) and `SenderDeviceID` (tag `-`, never marshalled);
`FullSyncEventData` has `Message` (tag `message`) and `SenderDeviceID`
(tag `-`). -/

inductive EventMsg where
  | fileEvent (path content senderDeviceID : String)
  | fullSync (message senderDeviceID : String)
  deriving DecidableEq, Repr

def hexDigit (n : Nat) : Char :=
  if n < 10 then Char.ofNat (48 + n) else Char.ofNat (97 + (n - 10))

/-- Go `encoding/json` string escaping (default HTML-escaping encoder). -/
def jsonEscapeChar (c : Char) : List Char :=
  if c = '"' then ['\\', '"']
  else if c = '\\' then ['\\', '\\']
  else if c = '\n' then ['\\', 'n']
  else if c = '\r' then ['\\', 'r']
  else if c = '\t' then ['\\', 't']
  else if c.toNat < 32 ∨ c = '<' ∨ c = '>' ∨ c = '&' then
    ['\\', 'u', '0', '0', hexDigit (c.toNat / 16), hexDigit (c.toNat % 16)]
  else [c]

def jsonQuote (s : String) : String :=
  "\"" ++ String.mk ((s.toList.map jsonEscapeChar).flatten) ++ "\""

/-- `json.Marshal` of a `FileEventData`: field order is declaration order,
`content` is dropped when empty (`omitempty`), `SenderDeviceID` is never
emitted (`json:"-"`). -/
def marshalFileEvent (path content : String) : String :=
  if content = "" then "\x7b\"path\":" ++ jsonQuote path ++ "\x7d"
  else "\x7b\"path\":" ++ jsonQuote path ++ ",\"content\":" ++ jsonQuote content ++ "\x7d"

/-- `json.Marshal` of a `FullSyncEventData` (`SenderDeviceID` never emitted). -/
def marshalFullSync (message : String) : String :=
  "\x7b\"message\":" ++ jsonQuote message ++ "\x7d"

/-- `json.Marshal` of an event value, as used both by `StoreMissedEvent`
when spooling and by the live relay loop. -/
def marshalEvent : EventMsg → String
  | .fileEvent p c _ => marshalFileEvent p c
  | .fullSync m _ => marshalFullSync m

/-- The event value with the internal sender field cleared; two events are
"the same event value" for subscribers when this agrees. -/
def eraseSender : EventMsg → EventMsg
  | .fileEvent p c _ => .fileEvent p c ""
  | .fullSync m _ => .fullSync m ""

/-- The SSE event name the relay loop in `EventsHandler` chooses for a live
event: a `FileEventData` with empty content is `file_deleted`, otherwise
`file_updated`; a `FullSyncEventData` is `full_sync_required`. -/
def eventNameOf : EventMsg → String
  | .fileEvent _ c _ => if c = "" then "file_deleted" else "file_updated"
  | .fullSync _ _ => "full_sync_required"

/-- The `data:` payload the relay loop writes.  Note the translation of the
source's control flow: for a `FileEventData` with empty content the handler
sets the event name but never assigns `jsonData`, so the frame data is the
empty string. -/
def liveData : EventMsg → String
  | .fileEvent p c _ => if c = "" then "" else marshalFileEvent p c
  | .fullSync m _ => marshalFullSync m

/-- The full SSE frame written for one live event:
`event: <name>\ndata: <json>\n\n`. -/
def liveFrame (e : EventMsg) : String :=
  "event: " ++ eventNameOf e ++ "\ndata: " ++ liveData e ++ "\n\n"

/-! ### Broadcaster (`state/manager.go` Broadcast + `state/missed.go`) -/

/-- How the broadcast reached one recipient: over its live SSE channel, or
appended to its on-disk spool by `StoreMissedEvent`. -/
inductive Delivery where
  | channel
  | spool
  deriving DecidableEq, Repr

/-- `Manager.Broadcast(senderDeviceID, eventData)`: for every tracked client
id, skip the sender; for an active client try the non-blocking channel send
(`active id = some true` when it succeeds) and fall back to the spool when
the channel is full (`some false`); spool directly for tracked-but-inactive
clients (`none`).  Returns who got the event and how. -/
def Broadcast (tracked : List String) (active : String → Option Bool)
    (sender : String) : List (String × Delivery) :=
  tracked.filterMap fun id =>
    if id = sender then none
    else
      match active id with
      | some sendOk => if sendOk then some (id, .channel) else some (id, .spool)
      | none => some (id, .spool)

/-- The delivery route `Broadcast` uses for a non-sender tracked client in
state `st`. -/
def deliveryOf : Option Bool → Delivery
  | some true => .channel
  | some false => .spool
  | none => .spool

/-- The bytes a recipient's stream (channel route, framed by the relay loop)
or spool file (spool route, written by `StoreMissedEvent`) ends up holding
for one event. -/
def subscriberBytes (d : Delivery) (e : EventMsg) : String :=
  match d with
  | .channel => liveFrame e
  | .spool => marshalEvent e

/-- One broadcast, down to the bytes each recipient observes. -/
def broadcastBytes (tracked : List String) (active : String → Option Bool)
    (sender : String) (e : EventMsg) : List (String × String) :=
  (Broadcast tracked active sender).map fun x => (x.1, subscriberBytes x.2 e)

/-! ### Push handler (`api/handlers.go` PushHandler) -/

/-- One entry of `files_to_update` as received (content still base64). -/
structure PushFileReq where
  path : String
  content : String
  deriving DecidableEq, Repr

/-- The decoded push request body. -/
structure PushRequest where
  filesToUpdate : List PushFileReq
  filesToDelete : List String
  deriving DecidableEq, Repr

/-- A record of one `StateManager.Broadcast` call. -/
structure BroadcastCall where
  sender : String
  event : EventMsg
  deriving DecidableEq, Repr

/-- PushHandler's sequence of Broadcast calls.  `deleteOk p` / `writeOk p`
report whether `vault.DeleteFile` / `vault.WriteFile` succeeded on path `p`.
Deletes are processed first; a failed delete, a base64 decode failure, or a
failed write each skip only their own file and emit nothing. -/
def pushEvents (deleteOk writeOk : String → Bool) (deviceID : String)
    (req : PushRequest) : List BroadcastCall :=
  (req.filesToDelete.filterMap fun path =>
    if deleteOk path then some ⟨deviceID, .fileEvent path "" ""⟩ else none)
  ++ req.filesToUpdate.filterMap fun f =>
      match base64Decode f.content with
      | none => none
      | some _ =>
          if writeOk f.path then some ⟨deviceID, .fileEvent f.path f.content ""⟩ else none

/-- The relative paths PushHandler hands to `vault.WriteFile` (every update
whose base64 content decodes, regardless of where the join lands). -/
def pushWriteCalls (req : PushRequest) : List String :=
  req.filesToUpdate.filterMap fun f =>
    match base64Decode f.content with
    | none => none
    | some _ => some f.path

/-- The relative paths PushHandler hands to `vault.DeleteFile` (all of them,
unconditionally). -/
def pushDeleteCalls (req : PushRequest) : List String :=
  req.filesToDelete

/-- The HTTP status and body PushHandler answers with once the request body
has parsed — always 200/success, even when some files failed or the history
commit failed. -/
def pushResponse : Nat × String :=
  (200, "success, push processed and changes broadcasted")

/-! ### Initial sync handler (`api/handlers.go` InitialSyncHandler) -/

def initialSyncMessage (deviceID : String) : String :=
  "Vault was reset and populated by an initial sync from device " ++ deviceID ++
    ". Other clients should perform a full pull if they need the latest state."

/-- The Broadcast calls InitialSyncHandler makes, as a function of whether
`vault.CleanDir` and `vault.ExtractTarGz` succeeded: on any failure the
handler returns early and broadcasts nothing; on success it broadcasts
exactly one `FullSyncEventData` tagged with the sender. -/
def initialSyncBroadcasts (cleanOk extractOk : Bool) (deviceID : String) :
    List BroadcastCall :=
  if cleanOk then
    if extractOk then [⟨deviceID, .fullSync (initialSyncMessage deviceID) ""⟩] else []
  else []

/-- InitialSyncHandler's HTTP status: 500 on a failed clean or extract,
200 with the success body otherwise. -/
def initialSyncResponse (cleanOk extractOk : Bool) : Nat × String :=
  if cleanOk then
    if extractOk then (200, "success, initial sync processed. Other clients notified.")
    else (500, "Failed to extract archive")
  else (500, "Failed to clean vault")

/-! ### Missed-event spool (`state/missed.go`) -/

/-- A spooled event after `json.Unmarshal` into `interface\x7b\x7d`: spool
files are written by `StoreMissedEvent` from the event structs, so they
deserialize to JSON objects with an optional `path`, `content` and
`message` key. -/
structure SpoolEvent where
  path : Option String
  content : Option String
  message : Option String
  deriving DecidableEq, Repr

/-- One file of a per-device spool directory.  `data = none` models a read
error, `data = some none` a deserialization error, `data = some (some e)` a
successfully parsed event. -/
structure SpoolFile where
  name : String
  data : Option (Option SpoolEvent)
  deriving DecidableEq, Repr

/-- `strings.TrimSuffix(name, ".json")`. -/
def trimSuffixJson (name : String) : String :=
  let l := name.toList
  if l.length ≥ 5 ∧ l.drop (l.length - 5) = ['.', 'j', 's', 'o', 'n'] then
    String.mk (l.take (l.length - 5))
  else name

def decDigitsStep : Option Nat → Char → Option Nat
  | some acc, c => if c.isDigit then some (acc * 10 + (c.toNat - 48)) else none
  | none, _ => none

/-- `strconv.ParseInt(s, 10, 64)`, keeping only the returned value: 0 on a
syntax error (the sort comparator ignores the error), clamped to the int64
range on overflow. -/
def goParseInt64 (s : String) : Int :=
  let signed : Bool × List Char :=
    match s.toList with
    | '-' :: rest => (true, rest)
    | '+' :: rest => (false, rest)
    | l => (false, l)
  match (if signed.2 = [] then none else signed.2.foldl decDigitsStep (some 0)) with
  | none => 0
  | some n =>
      let lim : Nat := if signed.1 then 2 ^ 63 else 2 ^ 63 - 1
      let v : Nat := min n lim
      if signed.1 then -(v : Int) else (v : Int)

/-- The sort key `RetrieveAndClearMissedEvents` uses for a spool file. -/
def spoolKey (f : SpoolFile) : Int :=
  goParseInt64 (trimSuffixJson f.name)

/-- The comparison the spool sort is based on. -/
def spoolLE (a b : SpoolFile) : Prop :=
  spoolKey a ≤ spoolKey b

instance : DecidableRel spoolLE := fun a b => inferInstanceAs (Decidable (spoolKey a ≤ spoolKey b))

instance : IsTrans SpoolFile spoolLE :=
  ⟨fun _ _ _ hab hbc => le_trans hab hbc⟩

instance : IsTotal SpoolFile spoolLE :=
  ⟨fun a b => le_total (spoolKey a) (spoolKey b)⟩

/-- `state.RetrieveAndClearMissedEvents`: a missing (or unreadable) directory
yields no events; otherwise the directory listing is sorted by the numeric
part of the filename, each file is read and deserialized — a failure skips
just that file — and the collected events are returned. -/
def RetrieveAndClearMissedEvents : Option (List SpoolFile) → List SpoolEvent
  | none => []
  | some files =>
      (files.insertionSort spoolLE).filterMap fun f => f.data.join

/-- Whether the handler reaches the `os.RemoveAll(clientDir)` call that
deletes the whole per-device directory (it does whenever the directory could
be listed; on a missing directory it returns before removing anything). -/
def retrieveRemovesDir : Option (List SpoolFile) → Bool
  | none => false
  | some _ => true

/-! ### Event stream reconnect replay (`api/handlers.go` EventsHandler) -/

/-- The resync threshold: the source compares `len(missedEvents) > 10`. -/
def resyncThreshold : Nat := 10

/-- The message of the over-threshold full-sync event. -/
def missedUpdatesMessage (n : Nat) : String :=
  "You have " ++ toString n ++ " missed updates. A full sync is required."

/-- The SSE event name chosen for one replayed spool event: a `path` key with
non-empty `content` is `file_updated`, a `path` key otherwise is
`file_deleted`, a `message` key alone is `full_sync_required`. -/
def replayEventName (e : SpoolEvent) : String :=
  match e.path with
  | some _ =>
      match e.content with
      | some c => if c ≠ "" then "file_updated" else "file_deleted"
      | none => "file_deleted"
  | none =>
      match e.message with
      | some _ => "full_sync_required"
      | none => ""

/-- `json.Marshal` of the deserialized spool map: Go serializes map keys in
sorted order, so `content` before `message` before `path`. -/
def marshalSpoolEvent (e : SpoolEvent) : String :=
  "\x7b" ++
    String.intercalate ","
      (List.filterMap id
        [e.content.map fun c => "\"content\":" ++ jsonQuote c,
         e.message.map fun m => "\"message\":" ++ jsonQuote m,
         e.path.map fun p => "\"path\":" ++ jsonQuote p]) ++ "\x7d"

/-- The SSE frame written for one replayed spool event. -/
def replayFrame (e : SpoolEvent) : String :=
  "event: " ++ replayEventName e ++ "\ndata: " ++ marshalSpoolEvent e ++ "\n\n"

/-- The frames EventsHandler writes right after draining the spool on a
reconnect: over the threshold it writes a single `full_sync_required` frame
naming the count and discards the drained events; otherwise it writes each
drained event's frame in order. -/
def missedEventFrames (missedEvents : List SpoolEvent) : List String :=
  if missedEvents.length > resyncThreshold then
    ["event: full_sync_required\ndata: " ++
      marshalFullSync (missedUpdatesMessage missedEvents.length) ++ "\n\n"]
  else if missedEvents.length > 0 then
    missedEvents.map replayFrame
  else []

/-! ### Spec-side reformulations and concrete instances used by the theorems -/

/-- The pull listing as the (amended) specification words it: the regular
files whose full path does not contain `.git`, each with relative
forward-slash path and base64 content. -/
def listAllAmendedSpec (vaultPath : String) (entries : List FSEntry) : List File :=
  (entries.filter fun e => !e.isDir && !strContains e.path ".git").map
    fun e => ⟨relTo vaultPath e.path, base64Encode e.content⟩

/-- The push broadcast calls as the (amended) specification words them: one
event per successful delete, then one event per update whose base64 decoded
and whose write succeeded, carrying the original base64 content. -/
def pushEventsSpec (deleteOk writeOk : String → Bool) (deviceID : String)
    (req : PushRequest) : List BroadcastCall :=
  ((req.filesToDelete.filter deleteOk).map fun p =>
    (⟨deviceID, .fileEvent p "" ""⟩ : BroadcastCall))
  ++ (req.filesToUpdate.filter fun f =>
        (base64Decode f.content).isSome && writeOk f.path).map
      fun f => (⟨deviceID, .fileEvent f.path f.content ""⟩ : BroadcastCall)

/-- The scenario-S6 push: one path-escaping update, one good update. -/
def pushS6 : PushRequest :=
  ⟨[⟨"../evil", "eA=="⟩, ⟨"ok.md", "eQ=="⟩], []⟩

/-- A walk listing of a vault holding one note, the history store, the
missed-events spool of device `B` and the tracked-clients file. -/
def spoolPullEntries : List FSEntry :=
  [⟨"/data", true, []⟩,
   ⟨"/data/notes", true, []⟩,
   ⟨"/data/notes/a.md", false, [104]⟩,
   ⟨"/data/.git", true, []⟩,
   ⟨"/data/.git/HEAD", false, [114]⟩,
   ⟨"/data/missed_events", true, []⟩,
   ⟨"/data/missed_events/B", true, []⟩,
   ⟨"/data/missed_events/B/1730000000.json", false, [104]⟩,
   ⟨"/data/clients.json", false, [104]⟩]

/-- A drained spool of 11 file-update events for the over-threshold case. -/
def elevenMissed : List SpoolEvent :=
  List.replicate 11 ⟨some "a.md", some "AA==", none⟩

/-- A drained spool of 2 events for the under-threshold case. -/
def twoMissed : List SpoolEvent :=
  [⟨some "a.md", some "AA==", none⟩, ⟨some "b.md", none, none⟩]

/-- A concrete activity map: `B` live with a free channel, `C` live with a
full channel, everyone else offline. -/
def activeBCfull : String → Option Bool :=
  fun id => if id = "B" then some true else if id = "C" then some false else none

/-! ## Theorems -/

/-- Claim C1: a push entry whose path escapes the vault root after cleaning
is NOT rejected — the code has no path validation at all.  At the concrete
request of scenario S6, `vault.WriteFile` is invoked for `../evil` and the
path it resolves (`filepath.Join("/data", "../evil")`) is `/evil`, outside
the vault root `/data`; the rest of the batch is still processed (the
`ok.md` event is emitted).  So the mutation is applied outside the root
instead of being skipped with no effect, contradicting the claim. -/
theorem c1_push_path_escape_applied_outside_root :
    writeFileTarget "/data" "../evil" = ⟨true, ["evil"]⟩
    ∧ underRoot (parsePath "/data") (writeFileTarget "/data" "../evil") = false
    ∧ pushWriteCalls pushS6 = ["../evil", "ok.md"]
    ∧ (⟨"A", .fileEvent "ok.md" "eQ==" ""⟩ : BroadcastCall)
        ∈ pushEvents (fun _ => true) (fun _ => true) "A" pushS6 := by
  refine ⟨by decide, by decide, by decide, by decide⟩

/-- Claim C2 counterexample: `GetAllFiles` does not exclude the missed-events
spool — a spool file of device `B` appears in the pull listing of a concrete
vault, with its path relative to the root and its content base64-encoded. -/
theorem c2_spool_file_in_pull_listing :
    (⟨"missed_events/B/1730000000.json", "aA=="⟩ : File)
      ∈ GetAllFiles "/data" spoolPullEntries := by
  decide

/-- Claim C2 (amended): the pull listing returns exactly the regular files of
the walk whose full path does not contain the substring `.git`, each with the
path made relative to the vault root and the content base64-encoded; files
inside the missed-events spool are not excluded. -/
theorem c2_pull_listing_amended (vaultPath : String) (entries : List FSEntry) :
    GetAllFiles vaultPath entries = listAllAmendedSpec vaultPath entries
    ∧ (∀ e ∈ entries, e.isDir = false → strContains e.path ".git" = false →
        (⟨relTo vaultPath e.path, base64Encode e.content⟩ : File)
          ∈ GetAllFiles vaultPath entries) := by
  constructor
  · induction entries with
    | nil => rfl
    | cons e es ih =>
        by_cases hd : e.isDir <;> by_cases hg : strContains e.path ".git" <;>
          simp [GetAllFiles, listAllAmendedSpec, List.filterMap_cons, List.filter_cons,
            hd, hg] at ih ⊢ <;>
          simpa [GetAllFiles, listAllAmendedSpec] using ih
  · intro e hmem hd hg
    simp only [GetAllFiles, List.mem_filterMap]
    exact ⟨e, hmem, by simp [hd, hg]⟩

/-- Witness for `c2_pull_listing_amended` at the concrete vault: the
tracked-clients file `clients.json` (a regular non-`.git` file) is in the
pull listing. -/
theorem c2_pull_listing_amended_witness :
    (⟨"clients.json", "aA=="⟩ : File) ∈ GetAllFiles "/data" spoolPullEntries := by
  have h := (c2_pull_listing_amended "/data" spoolPullEntries).2
      ⟨"/data/clients.json", false, [104]⟩ (by decide) (by decide) (by decide)
  simpa using h

/-- Claim C3 counterexample: `vault.CleanDir` removes every top-level entry
except `.git` — in particular the missed-events spool directory and the
tracked-clients file are removed, not preserved. -/
theorem c3_spool_and_clients_removed :
    "missed_events" ∈ CleanDirRemoved ["notes", ".git", "missed_events", "clients.json"]
    ∧ "clients.json" ∈ CleanDirRemoved ["notes", ".git", "missed_events", "clients.json"] := by
  refine ⟨by decide, by decide⟩

/-- Claim C3 (amended): the clean step of an initial replace removes exactly
the top-level entries other than `.git`; the spool directory and the
tracked-clients file do not survive. -/
theorem c3_clean_keeps_only_git (entries : List String) (name : String) :
    name ∈ CleanDirRemoved entries ↔ name ∈ entries ∧ name ≠ ".git" := by
  simp only [CleanDirRemoved, List.mem_filterMap]
  constructor
  · rintro ⟨a, ha, hf⟩
    by_cases h : a = ".git" <;> simp [h] at hf
    exact ⟨hf ▸ ha, hf ▸ h⟩
  · rintro ⟨hmem, hne⟩
    exact ⟨name, hmem, by simp [hne]⟩

/-- Claim C10: the pull listing omits every regular file whose full path
contains the substring `.git` anywhere — dropping all such entries from the
walk does not change the result — and in particular a user file named
`notes/a.github.md` is absent from the listing. -/
theorem c10_git_substring_filtering (vaultPath : String) (entries : List FSEntry) :
    GetAllFiles vaultPath entries
      = GetAllFiles vaultPath (entries.filter fun e => !strContains e.path ".git")
    ∧ GetAllFiles "/data" [⟨"/data/notes/a.github.md", false, [104, 105]⟩] = [] := by
  constructor
  · induction entries with
    | nil => rfl
    | cons e es ih =>
        by_cases hd : e.isDir <;> by_cases hg : strContains e.path ".git" <;>
          simp [GetAllFiles, List.filterMap_cons, List.filter_cons, hd, hg] at ih ⊢ <;>
          simpa [GetAllFiles] using ih
  · decide


theorem broadcast_eq (tracked : List String) (active : String → Option Bool) (sender : String) :
    Broadcast tracked active sender
      = tracked.filterMap fun id =>
          if id = sender then none else some (id, deliveryOf (active id)) := by
  unfold Broadcast
  apply List.filterMap_congr
  intro id _
  by_cases h : id = sender
  · simp [h]
  · cases hact : active id with
    | none => simp [h, hact, deliveryOf]
    | some b => cases b <;> simp [h, hact, deliveryOf]

theorem mem_Broadcast {tracked : List String} {active : String → Option Bool}
    {sender T : String} {d : Delivery} :
    (T, d) ∈ Broadcast tracked active sender
      ↔ T ∈ tracked ∧ T ≠ sender ∧ d = deliveryOf (active T) := by
  rw [broadcast_eq]
  simp only [List.mem_filterMap]
  constructor
  · rintro ⟨id, hid, hf⟩
    by_cases h : id = sender <;> simp [h] at hf
    obtain ⟨h1, h2⟩ := hf
    subst h1
    exact ⟨hid, h, h2.symm⟩
  · rintro ⟨hmem, hne, hd⟩
    exact ⟨T, hmem, by simp [hne, hd]⟩

theorem filter_fst_Broadcast (active : String → Option Bool) (sender T : String)
    (hne : T ≠ sender) (l : List String) :
    ((Broadcast l active sender).filter fun x => x.1 = T)
      = (l.filter fun id => id = T).map fun id => (id, deliveryOf (active id)) := by
  rw [broadcast_eq]
  induction l with
  | nil => rfl
  | cons a l ih =>
      by_cases haT : a = T
      · subst haT
        simp [List.filterMap_cons, List.filter_cons, hne, ih]
      · by_cases has : a = sender <;>
          simp [List.filterMap_cons, List.filter_cons, has, haT, ih, Ne.symm hne]

theorem nodup_filter_eq_single {l : List String} {T : String}
    (hnd : l.Nodup) (hT : T ∈ l) :
    (l.filter fun id => id = T) = [T] := by
  induction l with
  | nil => cases hT
  | cons a l ih =>
      obtain ⟨hna, hnd⟩ := List.nodup_cons.mp hnd
      by_cases haT : a = T
      · subst haT
        have : (l.filter fun id => id = a) = [] := by
          apply List.filter_eq_nil_iff.mpr
          intro b hb
          simp only [decide_eq_true_eq]
          exact fun hba => hna (hba ▸ hb)
        simp [List.filter_cons, this]
      · have hTl : T ∈ l := by
          rcases List.mem_cons.mp hT with h | h
          · exact absurd h.symm haT
          · exact h
        simp [List.filter_cons, haT, ih hnd hTl]


theorem c5_broadcast_routes (tracked : List String) (active : String → Option Bool)
    (sender T : String) (hT : T ∈ tracked) :
    (T = sender → ∀ d, (T, d) ∉ Broadcast tracked active sender)
    ∧ (T ≠ sender → active T = some true →
        (T, Delivery.channel) ∈ Broadcast tracked active sender)
    ∧ (T ≠ sender → active T = some false →
        (T, Delivery.spool) ∈ Broadcast tracked active sender)
    ∧ (T ≠ sender → active T = none →
        (T, Delivery.spool) ∈ Broadcast tracked active sender) := by
  refine ⟨?_, ?_, ?_, ?_⟩
  · rintro rfl d hmem
    exact (mem_Broadcast.mp hmem).2.1 rfl
  · intro hne hact
    exact mem_Broadcast.mpr ⟨hT, hne, by simp [deliveryOf, hact]⟩
  · intro hne hact
    exact mem_Broadcast.mpr ⟨hT, hne, by simp [deliveryOf, hact]⟩
  · intro hne hact
    exact mem_Broadcast.mpr ⟨hT, hne, by simp [deliveryOf, hact]⟩

theorem c5_broadcast_routes_witness :
    (("A", Delivery.channel) ∉ Broadcast ["A", "B", "C", "D"] activeBCfull "A")
    ∧ (("A", Delivery.spool) ∉ Broadcast ["A", "B", "C", "D"] activeBCfull "A")
    ∧ ("B", Delivery.channel) ∈ Broadcast ["A", "B", "C", "D"] activeBCfull "A"
    ∧ ("C", Delivery.spool) ∈ Broadcast ["A", "B", "C", "D"] activeBCfull "A"
    ∧ ("D", Delivery.spool) ∈ Broadcast ["A", "B", "C", "D"] activeBCfull "A" := by
  refine ⟨(c5_broadcast_routes _ activeBCfull "A" "A" (by decide)).1 rfl _,
    (c5_broadcast_routes _ activeBCfull "A" "A" (by decide)).1 rfl _,
    (c5_broadcast_routes _ activeBCfull "A" "B" (by decide)).2.1 (by decide) (by decide),
    (c5_broadcast_routes _ activeBCfull "A" "C" (by decide)).2.2.1 (by decide) (by decide),
    (c5_broadcast_routes _ activeBCfull "A" "D" (by decide)).2.2.2 (by decide) (by decide)⟩

theorem c7_initial_replace_single_full_sync (cleanOk extractOk : Bool) (sender : String)
    (tracked : List String) (active : String → Option Bool) (hnd : tracked.Nodup) :
    (cleanOk = true → extractOk = true →
      initialSyncBroadcasts cleanOk extractOk sender
          = [⟨sender, .fullSync (initialSyncMessage sender) ""⟩]
        ∧ (∀ call ∈ initialSyncBroadcasts cleanOk extractOk sender,
            eventNameOf call.event = "full_sync_required")
        ∧ ∀ T ∈ tracked, T ≠ sender →
            ((Broadcast tracked active sender).filter fun x => x.1 = T)
              = [(T, deliveryOf (active T))])
    ∧ ((cleanOk = false ∨ extractOk = false) →
        initialSyncBroadcasts cleanOk extractOk sender = []
        ∧ (initialSyncResponse cleanOk extractOk).1 = 500) := by
  constructor
  · rintro rfl rfl
    refine ⟨rfl, ?_, ?_⟩
    · intro call hc
      simp only [initialSyncBroadcasts, if_true, List.mem_singleton] at hc
      subst hc
      rfl
    · intro T hT hne
      rw [filter_fst_Broadcast active sender T hne tracked, nodup_filter_eq_single hnd hT]
      rfl
  · rintro (rfl | rfl)
    · simp [initialSyncBroadcasts, initialSyncResponse]
    · cases cleanOk <;> simp [initialSyncBroadcasts, initialSyncResponse]

theorem c7_initial_replace_single_full_sync_witness :
    initialSyncBroadcasts true true "A"
        = [⟨"A", .fullSync (initialSyncMessage "A") ""⟩]
    ∧ ((Broadcast ["A", "B", "C"] activeBCfull "A").filter fun x => x.1 = "B")
        = [("B", deliveryOf (activeBCfull "B"))]
    ∧ initialSyncBroadcasts false true "A" = []
    ∧ (initialSyncResponse false true).1 = 500 := by
  refine ⟨((c7_initial_replace_single_full_sync true true "A" ["A", "B", "C"] activeBCfull
      (by decide)).1 rfl rfl).1,
    ((c7_initial_replace_single_full_sync true true "A" ["A", "B", "C"] activeBCfull
      (by decide)).1 rfl rfl).2.2 "B" (by decide) (by decide),
    ((c7_initial_replace_single_full_sync false true "A" [] activeBCfull
      (by decide)).2 (Or.inl rfl)).1,
    ((c7_initial_replace_single_full_sync false true "A" [] activeBCfull
      (by decide)).2 (Or.inl rfl)).2⟩

theorem subscriberBytes_eraseSender (d : Delivery) (e : EventMsg) :
    subscriberBytes d e = subscriberBytes d (eraseSender e) := by
  cases d <;> cases e <;> rfl

theorem mem_broadcastBytes {tracked : List String} {active : String → Option Bool}
    {sender T b : String} {e : EventMsg} :
    (T, b) ∈ broadcastBytes tracked active sender e
      ↔ T ∈ tracked ∧ T ≠ sender ∧ b = subscriberBytes (deliveryOf (active T)) e := by
  unfold broadcastBytes
  simp only [List.mem_map]
  constructor
  · rintro ⟨⟨id, d⟩, hmem, heq⟩
    obtain ⟨h1, h2⟩ := Prod.mk.injEq .. ▸ heq
    subst h1
    obtain ⟨ht, hne, hd⟩ := mem_Broadcast.mp hmem
    exact ⟨ht, hne, by rw [← h2, hd]⟩
  · rintro ⟨hmem, hne, rfl⟩
    exact ⟨(T, deliveryOf (active T)), mem_Broadcast.mpr ⟨hmem, hne, rfl⟩, rfl⟩

theorem c9_sender_not_serialized (tracked : List String) (active : String → Option Bool)
    (s1 s2 T b1 b2 : String) (e1 e2 : EventMsg)
    (hpayload : eraseSender e1 = eraseSender e2)
    (h1 : (T, b1) ∈ broadcastBytes tracked active s1 e1)
    (h2 : (T, b2) ∈ broadcastBytes tracked active s2 e2) :
    b1 = b2
    ∧ marshalEvent e1 = marshalEvent (eraseSender e1)
    ∧ liveFrame e1 = liveFrame (eraseSender e1) := by
  refine ⟨?_, by cases e1 <;> rfl, by cases e1 <;> rfl⟩
  obtain ⟨_, _, hb1⟩ := mem_broadcastBytes.mp h1
  obtain ⟨_, _, hb2⟩ := mem_broadcastBytes.mp h2
  rw [hb1, hb2, subscriberBytes_eraseSender _ e1, subscriberBytes_eraseSender _ e2, hpayload]

theorem c9_sender_not_serialized_witness :
    liveFrame (.fileEvent "n.md" "aGVsbG8=" "A")
      = liveFrame (.fileEvent "n.md" "aGVsbG8=" "Z") := by
  exact (c9_sender_not_serialized ["A", "B", "Z"] activeBCfull "A" "Z" "B"
    (liveFrame (.fileEvent "n.md" "aGVsbG8=" "A"))
    (liveFrame (.fileEvent "n.md" "aGVsbG8=" "Z"))
    (.fileEvent "n.md" "aGVsbG8=" "A") (.fileEvent "n.md" "aGVsbG8=" "Z")
    rfl
    (mem_broadcastBytes.mpr ⟨by decide, by decide, rfl⟩)
    (mem_broadcastBytes.mpr ⟨by decide, by decide, rfl⟩)).1


theorem c4_reconnect_replay (missed : List SpoolEvent) :
    (missed.length > resyncThreshold →
      missedEventFrames missed
        = ["event: full_sync_required\ndata: " ++
            marshalFullSync (missedUpdatesMessage missed.length) ++ "\n\n"])
    ∧ (0 < missed.length → missed.length ≤ resyncThreshold →
        missedEventFrames missed = missed.map replayFrame) := by
  constructor
  · intro h
    simp [missedEventFrames, h]
  · intro h1 h2
    have hn : ¬ missed.length > resyncThreshold := by omega
    simp [missedEventFrames, hn, h1]

theorem c4_reconnect_replay_witness :
    missedEventFrames elevenMissed
        = ["event: full_sync_required\ndata: " ++
            marshalFullSync (missedUpdatesMessage 11) ++ "\n\n"]
    ∧ missedEventFrames twoMissed = twoMissed.map replayFrame := by
  constructor
  · have h := (c4_reconnect_replay elevenMissed).1 (by decide)
    simpa [elevenMissed] using h
  · exact (c4_reconnect_replay twoMissed).2 (by decide) (by decide)

theorem c6_empty_update_labeled_file_deleted :
    pushEvents (fun _ => true) (fun _ => true) "A" ⟨[⟨"empty.md", ""⟩], []⟩
        = [⟨"A", .fileEvent "empty.md" "" ""⟩]
    ∧ eventNameOf (.fileEvent "empty.md" "" "") = "file_deleted"
    ∧ eventNameOf (.fileEvent "empty.md" "" "") ≠ "file_updated" := by
  refine ⟨by decide, rfl, by decide⟩

theorem pushDeletes_eq (deleteOk : String → Bool) (deviceID : String) (paths : List String) :
    (paths.filterMap fun path =>
        if deleteOk path then some (⟨deviceID, .fileEvent path "" ""⟩ : BroadcastCall) else none)
      = (paths.filter deleteOk).map fun p => (⟨deviceID, .fileEvent p "" ""⟩ : BroadcastCall) := by
  induction paths with
  | nil => rfl
  | cons p ps ih =>
      by_cases h : deleteOk p <;>
        simp [List.filterMap_cons, List.filter_cons, h, ih]

theorem pushUpdates_eq (writeOk : String → Bool) (deviceID : String) (fs : List PushFileReq) :
    (fs.filterMap fun f =>
        match base64Decode f.content with
        | none => none
        | some _ =>
            if writeOk f.path then some (⟨deviceID, .fileEvent f.path f.content ""⟩ : BroadcastCall)
            else none)
      = (fs.filter fun f => (base64Decode f.content).isSome && writeOk f.path).map
          fun f => (⟨deviceID, .fileEvent f.path f.content ""⟩ : BroadcastCall) := by
  induction fs with
  | nil => rfl
  | cons f fs ih =>
      cases hdec : base64Decode f.content with
      | none => simp [List.filterMap_cons, List.filter_cons, hdec, ih]
      | some v =>
          by_cases hw : writeOk f.path <;>
            simp [List.filterMap_cons, List.filter_cons, hdec, hw, ih]

theorem c6_push_events_amended (deleteOk writeOk : String → Bool) (deviceID : String)
    (req : PushRequest) :
    pushEvents deleteOk writeOk deviceID req = pushEventsSpec deleteOk writeOk deviceID req
    ∧ pushResponse = (200, "success, push processed and changes broadcasted")
    ∧ (∀ f ∈ req.filesToUpdate, (base64Decode f.content).isSome = true → writeOk f.path = true →
        (⟨deviceID, .fileEvent f.path f.content ""⟩ : BroadcastCall)
          ∈ pushEvents deleteOk writeOk deviceID req
        ∧ eventNameOf (.fileEvent f.path f.content "")
            = (if f.content = "" then "file_deleted" else "file_updated"))
    ∧ (∀ p ∈ req.filesToDelete, deleteOk p = true →
        (⟨deviceID, .fileEvent p "" ""⟩ : BroadcastCall)
          ∈ pushEvents deleteOk writeOk deviceID req
        ∧ eventNameOf (.fileEvent p "" "") = "file_deleted") := by
  refine ⟨?_, rfl, ?_, ?_⟩
  · unfold pushEvents pushEventsSpec
    rw [pushDeletes_eq, pushUpdates_eq]
  · intro f hf hdec hw
    constructor
    · obtain ⟨v, hv⟩ := Option.isSome_iff_exists.mp hdec
      unfold pushEvents
      refine List.mem_append_right _ ?_
      exact List.mem_filterMap.mpr ⟨f, hf, by simp [hv, hw]⟩
    · simp [eventNameOf]
  · intro p hp hdel
    constructor
    · unfold pushEvents
      refine List.mem_append_left _ ?_
      exact List.mem_filterMap.mpr ⟨p, hp, by simp [hdel]⟩
    · rfl

theorem c6_push_events_amended_witness :
    pushEvents (fun _ => true) (fun p => p ≠ "locked.md") "A"
        ⟨[⟨"a.md", "AA=="⟩, ⟨"bad.md", "!!"⟩, ⟨"locked.md", "AA=="⟩], ["gone.md"]⟩
      = pushEventsSpec (fun _ => true) (fun p => p ≠ "locked.md") "A"
        ⟨[⟨"a.md", "AA=="⟩, ⟨"bad.md", "!!"⟩, ⟨"locked.md", "AA=="⟩], ["gone.md"]⟩
    ∧ (⟨"A", .fileEvent "a.md" "AA==" ""⟩ : BroadcastCall)
        ∈ pushEvents (fun _ => true) (fun p => p ≠ "locked.md") "A"
          ⟨[⟨"a.md", "AA=="⟩, ⟨"bad.md", "!!"⟩, ⟨"locked.md", "AA=="⟩], ["gone.md"]⟩
    ∧ (⟨"A", .fileEvent "gone.md" "" ""⟩ : BroadcastCall)
        ∈ pushEvents (fun _ => true) (fun p => p ≠ "locked.md") "A"
          ⟨[⟨"a.md", "AA=="⟩, ⟨"bad.md", "!!"⟩, ⟨"locked.md", "AA=="⟩], ["gone.md"]⟩ := by
  refine ⟨(c6_push_events_amended _ _ "A" _).1,
    ((c6_push_events_amended _ _ "A" _).2.2.1 ⟨"a.md", "AA=="⟩ (by decide) (by decide)
      (by decide)).1,
    ((c6_push_events_amended _ _ "A" _).2.2.2 "gone.md" (by decide) (by decide)).1⟩


theorem orderedInsert_eq_cons {α : Type} {r : α → α → Prop} [DecidableRel r] {a : α}
    {t : List α} (h : ∀ c ∈ t, r a c) : List.orderedInsert r a t = a :: t := by
  cases t with
  | nil => rfl
  | cons b s => simp [List.orderedInsert, h b (List.mem_cons_self b s)]

theorem filter_orderedInsert {α : Type} {r : α → α → Prop} [DecidableRel r] [IsTrans α r]
    (p : α → Bool) (a : α) (s : List α) (hs : s.Sorted r) :
    (List.orderedInsert r a s).filter p
      = if p a then List.orderedInsert r a (s.filter p) else s.filter p := by
  induction s with
  | nil => by_cases hpa : p a <;> simp [List.orderedInsert, List.filter_cons, hpa]
  | cons b t ih =>
      have hbt : ∀ c ∈ t, r b c := (List.sorted_cons.mp hs).1
      have ht : t.Sorted r := (List.sorted_cons.mp hs).2
      by_cases hab : r a b
      · simp only [List.orderedInsert, if_pos hab]
        by_cases hpa : p a <;> by_cases hpb : p b
        · simp [List.filter_cons, hpa, hpb, List.orderedInsert, hab]
        · have hall : ∀ c ∈ t.filter p, r a c := fun c hc =>
            Trans.trans hab (hbt c (List.mem_of_mem_filter hc))
          simp [List.filter_cons, hpa, hpb, orderedInsert_eq_cons hall]
        · simp [List.filter_cons, hpa, hpb, List.orderedInsert, hab]
        · simp [List.filter_cons, hpa, hpb]
      · simp only [List.orderedInsert, if_neg hab]
        by_cases hpa : p a <;> by_cases hpb : p b <;>
          simp [List.filter_cons, hpa, hpb, ih ht, List.orderedInsert, hab]

theorem filter_insertionSort {α : Type} {r : α → α → Prop} [DecidableRel r] [IsTrans α r]
    [IsTotal α r] (p : α → Bool) (l : List α) :
    (List.insertionSort r l).filter p = (l.filter p).insertionSort r := by
  induction l with
  | nil => rfl
  | cons a l ih =>
      simp only [List.insertionSort, List.filter_cons]
      rw [filter_orderedInsert p a _ (List.sorted_insertionSort r l)]
      by_cases hpa : p a <;> simp [hpa, ih, List.insertionSort]

theorem filterMap_filter_isSome {α β : Type} {f : α → Option β} (l : List α) :
    l.filterMap f = (l.filter fun a => (f a).isSome).filterMap f := by
  induction l with
  | nil => rfl
  | cons a l ih =>
      cases hf : f a <;> simp [List.filterMap_cons, List.filter_cons, hf, ih]

theorem c8_drain_sorted_skip_missing (files : List SpoolFile) :
    RetrieveAndClearMissedEvents none = []
    ∧ retrieveRemovesDir none = false
    ∧ retrieveRemovesDir (some files) = true
    ∧ RetrieveAndClearMissedEvents (some files)
        = ((files.filter fun f => (f.data.join).isSome).insertionSort spoolLE).filterMap
            (fun f => f.data.join)
    ∧ ((files.filter fun f => (f.data.join).isSome).insertionSort spoolLE).Sorted spoolLE := by
  refine ⟨rfl, rfl, rfl, ?_, List.sorted_insertionSort _ _⟩
  have h1 : RetrieveAndClearMissedEvents (some files)
      = (files.insertionSort spoolLE).filterMap fun f => f.data.join := rfl
  rw [h1, filterMap_filter_isSome, filter_insertionSort]

end Yamanaka
